import Mathlib

/-!
Verification of the lazywallet candlestick text renderer
(`src/ui/candlestick_text.rs`) and its axis-format tables
(`src/models/ohlc.rs`).

Modelling conventions:
* Rust `f64` values (prices, vertical coordinates, spacings) are embedded as
  exact rationals `ℚ`.  All arithmetic appearing in the renderer (`+`, `-`,
  `*`, `/`, `max`, `min`, comparisons, `floor`, `ceil`, `round`) is exact on
  the inputs the claims are about, so the rational model agrees with the
  floating-point program on them.
* `usize` becomes `ℕ` (with `ℕ` subtraction standing for `saturating_sub`,
  which is what the source uses at the one place it subtracts).
* `chrono::DateTime<Utc>` is embedded as a record carrying exactly the
  observations the source makes of it: the calendar year and month, the
  absolute day index of `date_naive()` (two timestamps have equal
  `date_naive()` iff their day indices are equal, and the `num_days`
  difference of two dates is the difference of their day indices), and the
  hour and minute of day.
* Rust `char` is Lean `Char`; a text row (`Vec<char>`) is a `List Char`.
-/

namespace Lazywallet

/-- Embedding of the observations the renderer makes of a
`chrono::DateTime<Utc>` timestamp: `date` is the absolute day index of
`date_naive()`, `year`/`month` are the calendar fields, `hour`/`minute`
the time of day. -/
structure Timestamp where
  date : ℤ
  year : ℤ
  month : ℕ
  hour : ℕ
  minute : ℕ
deriving DecidableEq, Repr

/-- Embedding of `OHLC` from `src/models/ohlc.rs` (prices as exact
rationals). -/
structure OHLC where
  timestamp : Timestamp
  «open» : ℚ
  high : ℚ
  low : ℚ
  close : ℚ
  volume : ℕ
deriving DecidableEq, Repr

/-- Embedding of `CandlePosition` from `src/ui/candlestick_text.rs`. -/
structure CandlePosition where
  column : ℕ
  width : ℕ
deriving DecidableEq, Repr

/-- Rust `f64::round`: round half away from zero.  The renderer only ever
rounds non-negative values, where this is `⌊x + 1/2⌋`. -/
def roundQ (x : ℚ) : ℤ :=
  if 0 ≤ x then ⌊x + 1 / 2⌋ else ⌈x - 1 / 2⌉

/-- Embedding of `CandlestickRenderer::compute_candle_positions`
(`src/ui/candlestick_text.rs:283-312`): 0 candles → no positions; 1 candle →
centred at `chart_width / 2` (integer division); otherwise each index `i`
gets column `round(i · chart_width/num_candles)` (as `usize`) clamped above
by `chart_width.saturating_sub(1)`. -/
def compute_candle_positions (chart_width num_candles : ℕ) : List CandlePosition :=
  if num_candles = 0 then
    []
  else if num_candles = 1 then
    [⟨chart_width / 2, 1⟩]
  else
    (List.range num_candles).map (fun (i : ℕ) =>
      let spacing : ℚ := (chart_width : ℚ) / (num_candles : ℚ)
      let exact_position : ℚ := (i : ℚ) * spacing
      let column : ℕ := (roundQ exact_position).toNat
      ⟨min column (chart_width - 1), 1⟩)

/-- The fields of `CandlestickRenderer` that the glyph selector reads
(`min_price`, `max_price`, `height`). -/
structure Renderer where
  min_price : ℚ
  max_price : ℚ
  height : ℕ
deriving DecidableEq, Repr

/-- Embedding of `CandlestickRenderer::price_to_height`
(`src/ui/candlestick_text.rs:143-149`). -/
def price_to_height (r : Renderer) (price : ℚ) : ℚ :=
  if r.max_price = r.min_price then
    (r.height : ℚ) / 2
  else
    (price - r.min_price) / (r.max_price - r.min_price) * (r.height : ℚ)

/-- Embedding of `CandlestickRenderer::compute_price_bounds`
(`src/ui/candlestick_text.rs:125-140`).  The Rust folds start from
`-∞`/`+∞`; the running extremum is embedded as `Option ℚ` with `none`
playing the role of the initial infinity, so an empty window (whose Rust
result is built from infinities and is never consumed) is modelled as
`none`. -/
def fold_max_high (candles : List OHLC) : Option ℚ :=
  candles.foldl (fun acc c => some (acc.elim c.high (fun v => max v c.high))) none

/-- Running minimum over the candle lows, `none` standing for the `+∞`
start of the Rust fold. -/
def fold_min_low (candles : List OHLC) : Option ℚ :=
  candles.foldl (fun acc c => some (acc.elim c.low (fun v => min v c.low))) none

/-- Embedding of `compute_price_bounds`: 2% margin below (clamped at 0) and
above the low/high extrema of the window. -/
def compute_price_bounds (candles : List OHLC) : Option (ℚ × ℚ) :=
  match fold_max_high candles, fold_min_low candles with
  | some max_price, some min_price =>
    let margin := (max_price - min_price) * (2 / 100)
    some (max (min_price - margin) 0, max_price + margin)
  | _, _ => none

/-- Glyph constant `UNICODE_VOID`. -/
def UNICODE_VOID : Char := ' '

/-- Glyph constant `UNICODE_BODY` (full body). -/
def UNICODE_BODY : Char := '┃'

/-- Glyph constant `UNICODE_HALF_BODY_BOTTOM` (body with a gap below). -/
def UNICODE_HALF_BODY_BOTTOM : Char := '╻'

/-- Glyph constant `UNICODE_HALF_BODY_TOP` (body with a gap above). -/
def UNICODE_HALF_BODY_TOP : Char := '╹'

/-- Glyph constant `UNICODE_WICK` (full wick). -/
def UNICODE_WICK : Char := '│'

/-- Glyph constant `UNICODE_TOP` (body→wick transition, top). -/
def UNICODE_TOP : Char := '╽'

/-- Glyph constant `UNICODE_BOTTOM` (body→wick transition, bottom). -/
def UNICODE_BOTTOM : Char := '╿'

/-- Glyph constant `UNICODE_UPPER_WICK` (upper half wick). -/
def UNICODE_UPPER_WICK : Char := '╷'

/-- Glyph constant `UNICODE_LOWER_WICK` (lower half wick). -/
def UNICODE_LOWER_WICK : Char := '╵'

/-- Guard of zone 1 of `render_candle` (upper wick zone):
`high_y.ceil() >= y && y >= max_y.floor()`. -/
def upper_zone (r : Renderer) (c : OHLC) (y : ℕ) : Bool :=
  decide ((y : ℚ) ≤ (⌈price_to_height r c.high⌉ : ℚ) ∧
    ((⌊price_to_height r (max c.«open» c.close)⌋ : ℚ) ≤ (y : ℚ)))

/-- Guard of zone 2 of `render_candle` (body zone):
`max_y.floor() >= y && y >= min_y.ceil()`. -/
def body_zone (r : Renderer) (c : OHLC) (y : ℕ) : Bool :=
  decide ((y : ℚ) ≤ (⌊price_to_height r (max c.«open» c.close)⌋ : ℚ) ∧
    ((⌈price_to_height r (min c.close c.«open»)⌉ : ℚ) ≤ (y : ℚ)))

/-- Guard of zone 3 of `render_candle` (lower wick zone):
`min_y.ceil() >= y && y >= low_y.floor()`. -/
def lower_zone (r : Renderer) (c : OHLC) (y : ℕ) : Bool :=
  decide ((y : ℚ) ≤ (⌈price_to_height r (min c.close c.«open»)⌉ : ℚ) ∧
    ((⌊price_to_height r c.low⌋ : ℚ) ≤ (y : ℚ)))

/-- The glyph chosen inside zone 1 of `render_candle`
(`src/ui/candlestick_text.rs:184-202`): `max_y`/`high_y` coverage of the
current row tested against the fractional thresholds 3/4 and 1/4, falling
through to the initial `UNICODE_VOID` when no branch assigns. -/
def upper_zone_glyph (r : Renderer) (c : OHLC) (y : ℕ) : Char :=
  if price_to_height r (max c.«open» c.close) - (y : ℚ) > 3 / 4 then UNICODE_BODY
  else if price_to_height r (max c.«open» c.close) - (y : ℚ) > 1 / 4 then
    if price_to_height r c.high - (y : ℚ) > 3 / 4 then UNICODE_TOP
    else UNICODE_HALF_BODY_BOTTOM
  else if price_to_height r c.high - (y : ℚ) > 3 / 4 then UNICODE_WICK
  else if price_to_height r c.high - (y : ℚ) > 1 / 4 then UNICODE_UPPER_WICK
  else UNICODE_VOID

/-- The glyph chosen inside zone 3 of `render_candle`
(`src/ui/candlestick_text.rs:215-233`). -/
def lower_zone_glyph (r : Renderer) (c : OHLC) (y : ℕ) : Char :=
  if price_to_height r (min c.close c.«open») - (y : ℚ) < 1 / 4 then UNICODE_BODY
  else if price_to_height r (min c.close c.«open») - (y : ℚ) < 3 / 4 then
    if price_to_height r c.low - (y : ℚ) < 1 / 4 then UNICODE_BOTTOM
    else UNICODE_HALF_BODY_TOP
  else if price_to_height r c.low - (y : ℚ) < 1 / 4 then UNICODE_WICK
  else if price_to_height r c.low - (y : ℚ) < 3 / 4 then UNICODE_LOWER_WICK
  else UNICODE_VOID

/-- Embedding of `CandlestickRenderer::render_candle`
(`src/ui/candlestick_text.rs:169-237`): the mutable `output` initialised to
`UNICODE_VOID` and assigned in the three-zone `if`/`else if` chain becomes a
conditional expression with the same guards in the same order, the two
inner threshold chains split off as `upper_zone_glyph`/`lower_zone_glyph`. -/
def render_candle (r : Renderer) (c : OHLC) (y : ℕ) : Char :=
  if upper_zone r c y then upper_zone_glyph r c y
  else if body_zone r c y then UNICODE_BODY
  else if lower_zone r c y then lower_zone_glyph r c y
  else UNICODE_VOID

/-- The nine glyph categories of the renderer, in the order of the constant
block of the source. -/
def glyph_categories : List Char :=
  [UNICODE_VOID, UNICODE_BODY, UNICODE_HALF_BODY_BOTTOM, UNICODE_HALF_BODY_TOP,
   UNICODE_WICK, UNICODE_TOP, UNICODE_BOTTOM, UNICODE_UPPER_WICK, UNICODE_LOWER_WICK]

/-- Embedding of the per-row grid construction of `render_lines`
(`src/ui/candlestick_text.rs:343-352`): a blank row of `width` characters in
which each candle paints `render_candle` at its planned column (guarded by
`pos.column < line_chars.len()`). -/
def line_chars (r : Renderer) (candles : List OHLC)
    (positions : List CandlePosition) (y : ℕ) (width : ℕ) : List Char :=
  (candles.zip positions).foldl
    (fun line cp =>
      if cp.2.column < line.length then line.set cp.2.column (render_candle r cp.1 y)
      else line)
    (List.replicate width ' ')

/-- Embedding of `LabelStrategy` from `src/models/ohlc.rs:117-140`. -/
inductive LabelStrategy where
  | RoundHours (interval_hours : ℕ)
  | DayChanges
  | RegularDays (interval_days : ℕ)
  | RegularWeeks (interval_days : ℕ)
  | RegularMonths (interval_months : ℕ)
  | RegularYears (interval_years : ℕ)
deriving DecidableEq, Repr

/-- Embedding of `Interval` from `src/models/ohlc.rs:94-109`. -/
inductive Interval where
  | M5
  | M15
  | M30
  | H1
  | H4
  | D1
  | W1
deriving DecidableEq, Repr

/-- Embedding of `AxisFormats` from `src/models/ohlc.rs:149-156` (the two
`chrono` format strings are kept verbatim). -/
structure AxisFormats where
  time_format : Option String
  date_format : String
  label_strategy : LabelStrategy
deriving DecidableEq, Repr

/-- Embedding of `Interval::x_axis_format` (`src/models/ohlc.rs:236-274`). -/
def x_axis_format : Interval → AxisFormats
  | .M5 => ⟨some "%H:%M", "%d/%m", .RoundHours 1⟩
  | .M15 => ⟨some "%H:%M", "%d/%m", .RoundHours 3⟩
  | .M30 => ⟨some "%H:%M", "%d/%m", .RoundHours 6⟩
  | .H1 => ⟨none, "%d/%m", .RegularDays 2⟩
  | .H4 => ⟨none, "%b", .RegularMonths 1⟩
  | .D1 => ⟨none, "%b", .RegularMonths 1⟩
  | .W1 => ⟨none, "%Y", .RegularYears 1⟩

/-- Whether `render_x_axis` emits a time row holding formatted times: the
source renders one exactly when `axis_formats.time_format` is `Some`
(`src/ui/candlestick_text.rs:527-561`); for `None` it pushes a blank row. -/
def time_row_has_times (i : Interval) : Bool :=
  (x_axis_format i).time_format.isSome

/-- Embedding of the narrow-terminal strategy adjustment of `render_x_axis`
(`src/ui/candlestick_text.rs:481-500`): when `width < 80`, `RoundHours` and
`RegularDays` get their period doubled and every other strategy passes
through the `other => other` arm unchanged. -/
def adjusted_strategy (width : ℕ) (s : LabelStrategy) : LabelStrategy :=
  if width < 80 then
    match s with
    | .RoundHours interval_hours => .RoundHours (interval_hours * 2)
    | .RegularDays interval_days => .RegularDays (interval_days * 2)
    | other => other
  else s

/-- Embedding of `CandlestickRenderer::should_show_label`
(`src/ui/candlestick_text.rs:397-458`).  `date_naive()` differences and
equality become differences and equality of the absolute day index;
`num_days().abs() >= interval as i64` becomes `natAbs ≥ interval`. -/
def should_show_label (c : OHLC) (prev_candle : Option OHLC)
    (strategy : LabelStrategy) : Bool :=
  match strategy with
  | .RoundHours interval_hours =>
    c.timestamp.hour % interval_hours == 0 && c.timestamp.minute == 0
  | .DayChanges =>
    match prev_candle with
    | some prev => c.timestamp.date != prev.timestamp.date
    | none => true
  | .RegularDays interval_days =>
    match prev_candle with
    | some prev => (c.timestamp.date - prev.timestamp.date).natAbs ≥ interval_days
    | none => true
  | .RegularWeeks interval_days =>
    match prev_candle with
    | some prev => (c.timestamp.date - prev.timestamp.date).natAbs ≥ interval_days
    | none => true
  | .RegularMonths interval_months =>
    match prev_candle with
    | some prev =>
      ((c.timestamp.year - prev.timestamp.year) * 12 +
        ((c.timestamp.month : ℤ) - (prev.timestamp.month : ℤ))).natAbs ≥ interval_months
    | none => true
  | .RegularYears interval_years =>
    match prev_candle with
    | some prev => (c.timestamp.year - prev.timestamp.year).natAbs ≥ interval_years
    | none => true

/-- Number of candles of the window that satisfy the active label strategy,
threading `prev_candle` exactly as the tick/label loops of `render_x_axis`
do (`src/ui/candlestick_text.rs:508-515`): this is the number of labels the
axis produces. -/
def count_labels_from (prev_candle : Option OHLC) :
    List OHLC → LabelStrategy → ℕ
  | [], _ => 0
  | c :: rest, strategy =>
    (if should_show_label c prev_candle strategy then 1 else 0) +
      count_labels_from (some c) rest strategy

/-- Number of labels produced over a candle window (loop started with
`prev_candle = None`). -/
def count_labels (candles : List OHLC) (strategy : LabelStrategy) : ℕ :=
  count_labels_from none candles strategy

/-- Overlap test of the date row (`src/ui/candlestick_text.rs:586`): is any
cell of `[start, stop)` already non-blank? -/
def has_overlap (line : List Char) (start stop : ℕ) : Bool :=
  (List.range' start (stop - start)).any (fun idx => line.getD idx ' ' != ' ')

/-- The character-by-character label write of the date row
(`src/ui/candlestick_text.rs:589-594`): the `j`-th character of the label
goes to cell `start + j` when that index is below `stop`; `idx` is the
running cell index `start + j`. -/
def write_label (line : List Char) (label : List Char) (idx stop : ℕ) : List Char :=
  match label with
  | [] => line
  | ch :: rest =>
    write_label (if idx < stop then line.set idx ch else line) rest (idx + 1) stop

/-- One iteration of the date-row loop of `render_x_axis`
(`src/ui/candlestick_text.rs:576-599`) for a candle that passed
`should_show_label`: the item is the pair of the formatted date label
(as a character list) and the candle's planned column.  The label is centred
on the column with `saturating_sub`, clipped to the row length, skipped
whole on overlap and otherwise written character by character. -/
def place_date_label (line : List Char) (item : List Char × ℕ) : List Char :=
  let date_label := item.1
  let date_start := item.2 - date_label.length / 2
  let date_end := min (date_start + date_label.length) line.length
  if has_overlap line date_start date_end then line
  else write_label line date_label date_start date_end

/-- The full date row: the labelled candles' (label, column) pairs written
in window order into a blank row of `width` cells. -/
def place_date_labels (width : ℕ) (items : List (List Char × ℕ)) : List Char :=
  items.foldl place_date_label (List.replicate width ' ')

/-- The half-open cell ranges `[date_start, date_end)` of the labels that
the date-row loop actually writes (the ones whose overlap check passes),
obtained by replaying `place_date_label` over the item list. -/
def written_ranges : List Char → List (List Char × ℕ) → List (ℕ × ℕ)
  | _, [] => []
  | line, item :: rest =>
    let date_start := item.2 - item.1.length / 2
    let date_end := min (date_start + item.1.length) line.length
    if has_overlap line date_start date_end then written_ranges line rest
    else (date_start, date_end) :: written_ranges (write_label line item.1 date_start date_end) rest

/-- Two half-open ranges of date-row cells have no column in common. -/
def ranges_disjoint (a b : ℕ × ℕ) : Prop :=
  ∀ idx, a.1 ≤ idx → idx < a.2 → ¬(b.1 ≤ idx ∧ idx < b.2)

/-- A sample timestamp (midnight of day 0) used for concrete candles. -/
def sample_timestamp : Timestamp := ⟨0, 2024, 1, 0, 0⟩

/-- The flat candle of the flat-series scenario: open = close = high =
low = 100. -/
def flat_candle : OHLC := ⟨sample_timestamp, 100, 100, 100, 100, 0⟩

/-- The flat-series scenario input: three flat candles at price 100. -/
def flat_series : List OHLC := [flat_candle, flat_candle, flat_candle]

/-- A sample candle with a genuine body (open 2, high 9, low 1, close 8). -/
def sample_candle : OHLC := ⟨sample_timestamp, 2, 9, 1, 8, 0⟩

/-- A window of candles one hour apart starting at midnight of day 0, all
on the minute; under the round-hours strategy every one of them is
labelled. -/
def hourly_candle (i : ℕ) : OHLC :=
  ⟨⟨(i : ℤ) / 24, 2024, 1, i % 24, 0⟩, 1, 1, 1, 1, 0⟩

/-- The first `n` hourly candles. -/
def hourly_candles (n : ℕ) : List OHLC :=
  (List.range n).map hourly_candle

/-- Sample date-row items (label text, column) used by the witness of the
overlap claim: two five-character labels centred one column apart. -/
def sample_date_items : List (List Char × ℕ) :=
  [(['0', '1', '/', '0', '2'], 3), (['0', '3', '/', '0', '2'], 5)]

/-- C8: whenever the renderer's computed maximum price equals its minimum
price, `price_to_height` returns the constant `height / 2` for every input
price (no division by zero, every price maps to mid-height). -/
theorem c8_flat_range_mid_height (r : Renderer) (price : ℚ)
    (h : r.max_price = r.min_price) :
    price_to_height r price = (r.height : ℚ) / 2 := by
  simp [price_to_height, h]

/-- Witness for C8 at a concrete degenerate renderer and price. -/
theorem c8_flat_range_mid_height_witness :
    (Renderer.mk 100 100 10).max_price = (Renderer.mk 100 100 10).min_price ∧
    price_to_height (Renderer.mk 100 100 10) 42 = ((10 : ℕ) : ℚ) / 2 :=
  ⟨rfl, c8_flat_range_mid_height ⟨100, 100, 10⟩ 42 rfl⟩

/-- C4 counterexample: the claim says every numeric-period strategy is
doubled below the narrow threshold, but at width 79 the regular-months
strategy passes through unchanged (`other => other` arm), not doubled. -/
theorem c4_counterexample :
    adjusted_strategy 79 (.RegularMonths 1) = .RegularMonths 1 ∧
    LabelStrategy.RegularMonths 1 ≠ .RegularMonths 2 := by
  constructor
  · rfl
  · decide

/-- C4 (amended): below the narrow threshold (width < 80) exactly the
round-hours and regular-days strategies have their period doubled;
day-change, regular-weeks, regular-months and regular-years strategies are
left unchanged; at or above the threshold no strategy is altered. -/
theorem c4_narrow_doubling (width : ℕ) :
    (width < 80 →
      (∀ h, adjusted_strategy width (.RoundHours h) = .RoundHours (h * 2)) ∧
      (∀ d, adjusted_strategy width (.RegularDays d) = .RegularDays (d * 2)) ∧
      adjusted_strategy width .DayChanges = .DayChanges ∧
      (∀ d, adjusted_strategy width (.RegularWeeks d) = .RegularWeeks d) ∧
      (∀ m, adjusted_strategy width (.RegularMonths m) = .RegularMonths m) ∧
      (∀ y, adjusted_strategy width (.RegularYears y) = .RegularYears y)) ∧
    (¬width < 80 → ∀ s, adjusted_strategy width s = s) := by
  constructor
  · intro hw
    refine ⟨fun h => ?_, fun d => ?_, ?_, fun d => ?_, fun m => ?_, fun y => ?_⟩ <;>
      simp [adjusted_strategy, hw]
  · intro hw s
    simp [adjusted_strategy, hw]

/-- Witness for C4 (amended) on both sides of the threshold. -/
theorem c4_narrow_doubling_witness :
    adjusted_strategy 79 (.RoundHours 3) = .RoundHours 6 ∧
    adjusted_strategy 80 (.RegularDays 2) = .RegularDays 2 :=
  ⟨((c4_narrow_doubling 79).1 (by decide)).1 3,
   (c4_narrow_doubling 80).2 (by decide) (.RegularDays 2)⟩

/-- C5 counterexample: the claim says every granularity below daily gets a
time row with formatted intraday times, but the 1-hour granularity has
`time_format = None` and so no time row is rendered for it. -/
theorem c5_counterexample :
    ¬(time_row_has_times Interval.H1 = true) := by
  decide

/-- C5 (amended): a time row with formatted intraday times is rendered for
the 5-, 15- and 30-minute granularities only; the 1-hour, 4-hour, daily and
weekly granularities render none. -/
theorem c5_time_row_presence :
    time_row_has_times .M5 = true ∧ (x_axis_format .M5).time_format = some "%H:%M" ∧
    time_row_has_times .M15 = true ∧ (x_axis_format .M15).time_format = some "%H:%M" ∧
    time_row_has_times .M30 = true ∧ (x_axis_format .M30).time_format = some "%H:%M" ∧
    time_row_has_times .H1 = false ∧
    time_row_has_times .H4 = false ∧
    time_row_has_times .D1 = false ∧
    time_row_has_times .W1 = false := by
  constructor
  · rfl
  · constructor
    · rfl
    · constructor
      · rfl
      · constructor
        · rfl
        · constructor
          · rfl
          · exact ⟨rfl, rfl, rfl, rfl, rfl⟩

/-- C2: `render_candle` always returns one of the nine glyph categories
(which are pairwise distinct, so exactly one is selected, with no undefined
case), and a row classified into the body zone (the zone-2 branch: not in
the upper-wick zone guard, inside the body guard) always yields the
full-body glyph. -/
theorem c2_glyph_coverage (r : Renderer) (c : OHLC) (y : ℕ) :
    render_candle r c y ∈ glyph_categories ∧
    glyph_categories.Nodup ∧
    (upper_zone r c y = false → body_zone r c y = true →
      render_candle r c y = UNICODE_BODY) := by
  refine ⟨?_, by decide, ?_⟩
  · unfold render_candle upper_zone_glyph lower_zone_glyph
    repeat' split
    all_goals decide
  · intro h1 h2
    simp [render_candle, h1, h2]

/-- Witness for C2 at a concrete candle and a row inside the body zone. -/
theorem c2_glyph_coverage_witness :
    upper_zone ⟨0, 10, 10⟩ sample_candle 5 = false ∧
    body_zone ⟨0, 10, 10⟩ sample_candle 5 = true ∧
    render_candle ⟨0, 10, 10⟩ sample_candle 5 = UNICODE_BODY :=
  ⟨by norm_num [upper_zone, price_to_height, sample_candle],
   by norm_num [body_zone, price_to_height, sample_candle],
   (c2_glyph_coverage ⟨0, 10, 10⟩ sample_candle 5).2.2
     (by norm_num [upper_zone, price_to_height, sample_candle])
     (by norm_num [body_zone, price_to_height, sample_candle])⟩

/-- The position list has one entry per candle. -/
theorem compute_candle_positions_length (w n : ℕ) :
    (compute_candle_positions w n).length = n := by
  unfold compute_candle_positions
  split
  · simp [*]
  · split
    · simp [*]
    · simp

/-- Closed form of the `i`-th planned position when there is more than one
candle. -/
theorem compute_candle_positions_getD (w n i : ℕ) (hn : 1 < n) (hi : i < n) :
    (compute_candle_positions w n).getD i ⟨0, 0⟩ =
      ⟨min (roundQ ((i : ℚ) * ((w : ℚ) / (n : ℚ)))).toNat (w - 1), 1⟩ := by
  have h0 : ¬n = 0 := by omega
  have h1 : ¬n = 1 := by omega
  simp only [compute_candle_positions, h0, h1, if_false, List.getD_eq_getElem?_getD,
    List.getElem?_map, List.getElem?_range hi, Option.map_some', Option.getD_some]

/-- In a chart of positive width with more than one candle, every planned
column is clamped into `[0, w-1]` and sits within one column of the ideal
real-valued position `i · spacing`. -/
theorem candle_column_error (w n i : ℕ) (hw : 0 < w) (hn : 1 < n) (hi : i < n) :
    ((compute_candle_positions w n).getD i ⟨0, 0⟩).column ≤ w - 1 ∧
    |(((compute_candle_positions w n).getD i ⟨0, 0⟩).column : ℚ) -
      (i : ℚ) * ((w : ℚ) / (n : ℚ))| ≤ 1 := by
  rw [compute_candle_positions_getD w n i hn hi]
  set s : ℚ := (w : ℚ) / (n : ℚ) with hs
  set x : ℚ := (i : ℚ) * s with hxdef
  have hwq : (0 : ℚ) < (w : ℚ) := by exact_mod_cast hw
  have hnq : (0 : ℚ) < (n : ℚ) := by exact_mod_cast Nat.lt_of_lt_of_le Nat.zero_lt_one hn.le
  have hs0 : 0 < s := div_pos hwq hnq
  have hx0 : 0 ≤ x := mul_nonneg (Nat.cast_nonneg i) hs0.le
  have hround : roundQ x = ⌊x + 1 / 2⌋ := by rw [roundQ, if_pos hx0]
  have hfl_le : ((⌊x + 1 / 2⌋ : ℤ) : ℚ) ≤ x + 1 / 2 := Int.floor_le _
  have hfl_gt : x + 1 / 2 - 1 < ((⌊x + 1 / 2⌋ : ℤ) : ℚ) := Int.sub_one_lt_floor _
  have hfl0 : 0 ≤ ⌊x + 1 / 2⌋ := Int.floor_nonneg.mpr (by linarith)
  have hxw : x < (w : ℚ) := by
    have hi' : (i : ℚ) ≤ (n : ℚ) - 1 := by
      have : (i : ℚ) + 1 ≤ (n : ℚ) := by exact_mod_cast hi
      linarith
    have hxle : x ≤ ((n : ℚ) - 1) * s := by
      rw [hxdef]
      exact mul_le_mul_of_nonneg_right hi' hs0.le
    have hns : ((n : ℚ) - 1) * s = (w : ℚ) - s := by
      rw [hs]
      field_simp
      ring
    linarith
  constructor
  · exact min_le_right _ _
  · rcases le_or_lt ((roundQ x).toNat) (w - 1) with hle | hgt
    · rw [min_eq_left hle, hround]
      have hcast : ((⌊x + 1 / 2⌋.toNat : ℕ) : ℚ) = ((⌊x + 1 / 2⌋ : ℤ) : ℚ) := by
        exact_mod_cast congrArg (fun z : ℤ => (z : ℚ)) (Int.toNat_of_nonneg hfl0)
      rw [hcast, abs_le]
      constructor <;> linarith
    · rw [min_eq_right hgt.le]
      have hwR : (w : ℚ) ≤ ((⌊x + 1 / 2⌋ : ℤ) : ℚ) := by
        have h1 : w ≤ (roundQ x).toNat := by omega
        have h2 : (w : ℤ) ≤ (roundQ x).toNat := by exact_mod_cast h1
        rw [hround] at h2
        rw [Int.toNat_of_nonneg hfl0] at h2
        exact_mod_cast h2
      have hw1 : ((w - 1 : ℕ) : ℚ) = (w : ℚ) - 1 := by
        have : (1 : ℕ) ≤ w := hw
        push_cast [Nat.cast_sub this]
        ring
      rw [hw1, abs_le]
      constructor <;> linarith

/-- C1: `compute_candle_positions` returns exactly `n` positions — empty
for `n = 0`, the single centred column `chart_width / 2` for `n = 1`, and
for `n > 1` the column `round(i · chart_width/n)` clamped into
`[0, chart_width-1]`, computed directly from the index; in particular for
500 candles in 100 columns every column lies in `[0, 99]` within one column
of the ideal `i · spacing`. -/
theorem c1_candle_positions (w n : ℕ) :
    ((compute_candle_positions w n).length = n) ∧
    (n = 0 → compute_candle_positions w n = []) ∧
    (n = 1 → compute_candle_positions w n = [⟨w / 2, 1⟩]) ∧
    (1 < n → ∀ i, i < n →
      (compute_candle_positions w n).getD i ⟨0, 0⟩ =
        ⟨min (roundQ ((i : ℚ) * ((w : ℚ) / (n : ℚ)))).toNat (w - 1), 1⟩) ∧
    (∀ i, i < 500 →
      ((compute_candle_positions 100 500).getD i ⟨0, 0⟩).column ≤ 99 ∧
      |(((compute_candle_positions 100 500).getD i ⟨0, 0⟩).column : ℚ) -
        (i : ℚ) * ((100 : ℚ) / (500 : ℚ))| ≤ 1) := by
  refine ⟨compute_candle_positions_length w n, ?_, ?_, ?_, ?_⟩
  · intro h
    simp [compute_candle_positions, h]
  · intro h
    subst h
    simp [compute_candle_positions]
  · intro hn i hi
    exact compute_candle_positions_getD w n i hn hi
  · intro i hi
    exact candle_column_error 100 500 i (by norm_num) (by norm_num) hi

/-- Witness for C1: the single-candle case at width 7, and the scenario
bound at the last of 500 candles in 100 columns. -/
theorem c1_candle_positions_witness :
    compute_candle_positions 7 1 = [⟨3, 1⟩] ∧
    ((compute_candle_positions 100 500).getD 499 ⟨0, 0⟩).column ≤ 99 :=
  ⟨(c1_candle_positions 7 1).2.2.1 rfl,
   ((c1_candle_positions 100 500).2.2.2.2 499 (by norm_num)).1⟩

/-- C9: planned columns are non-decreasing in the candle index: for `i < j`
inside the window, column(i) ≤ column(j). -/
theorem c9_monotonic_columns (w n i j : ℕ) (hij : i < j) (hj : j < n) :
    ((compute_candle_positions w n).getD i ⟨0, 0⟩).column ≤
      ((compute_candle_positions w n).getD j ⟨0, 0⟩).column := by
  rcases Nat.lt_or_ge n 2 with hn | hn
  · exfalso
    omega
  · have hn1 : 1 < n := hn
    rw [compute_candle_positions_getD w n i hn1 (by omega),
        compute_candle_positions_getD w n j hn1 hj]
    have hs0 : (0 : ℚ) ≤ (w : ℚ) / (n : ℚ) :=
      div_nonneg (Nat.cast_nonneg w) (Nat.cast_nonneg n)
    have hmul : (i : ℚ) * ((w : ℚ) / (n : ℚ)) ≤ (j : ℚ) * ((w : ℚ) / (n : ℚ)) :=
      mul_le_mul_of_nonneg_right (by exact_mod_cast hij.le) hs0
    have hx0 : (0 : ℚ) ≤ (i : ℚ) * ((w : ℚ) / (n : ℚ)) :=
      mul_nonneg (Nat.cast_nonneg i) hs0
    have hy0 : (0 : ℚ) ≤ (j : ℚ) * ((w : ℚ) / (n : ℚ)) :=
      mul_nonneg (Nat.cast_nonneg j) hs0
    show min (roundQ ((i : ℚ) * ((w : ℚ) / (n : ℚ)))).toNat (w - 1) ≤
      min (roundQ ((j : ℚ) * ((w : ℚ) / (n : ℚ)))).toNat (w - 1)
    refine min_le_min ?_ le_rfl
    rw [roundQ, if_pos hx0, roundQ, if_pos hy0]
    exact Int.toNat_le_toNat (Int.floor_le_floor (by linarith))

/-- Witness for C9 at concrete indices of the 500-candle window. -/
theorem c9_monotonic_columns_witness :
    ((compute_candle_positions 100 500).getD 3 ⟨0, 0⟩).column ≤
      ((compute_candle_positions 100 500).getD 7 ⟨0, 0⟩).column :=
  c9_monotonic_columns 100 500 3 7 (by norm_num) (by norm_num)

/-- Folding the running-maximum step from a `some` seed is the plain
`max`-fold over the mapped highs. -/
theorem fold_max_high_from_some (rest : List OHLC) (v : ℚ) :
    rest.foldl (fun acc c => some (acc.elim c.high (fun m => max m c.high))) (some v) =
      some ((rest.map OHLC.high).foldl max v) := by
  induction rest generalizing v with
  | nil => rfl
  | cons d ds ih => simp [ih]

/-- Folding the running-minimum step from a `some` seed is the plain
`min`-fold over the mapped lows. -/
theorem fold_min_low_from_some (rest : List OHLC) (v : ℚ) :
    rest.foldl (fun acc c => some (acc.elim c.low (fun m => min m c.low))) (some v) =
      some ((rest.map OHLC.low).foldl min v) := by
  induction rest generalizing v with
  | nil => rfl
  | cons d ds ih => simp [ih]

/-- The `-∞`-seeded high fold equals `List.max?` of the highs. -/
theorem fold_max_high_eq_max? (cs : List OHLC) :
    fold_max_high cs = (cs.map OHLC.high).max? := by
  cases cs with
  | nil => rfl
  | cons c rest =>
    rw [fold_max_high, List.foldl_cons]
    show rest.foldl (fun acc c => some (acc.elim c.high (fun m => max m c.high)))
      (some c.high) = _
    rw [fold_max_high_from_some]
    rfl

/-- The `+∞`-seeded low fold equals `List.min?` of the lows. -/
theorem fold_min_low_eq_min? (cs : List OHLC) :
    fold_min_low cs = (cs.map OHLC.low).min? := by
  cases cs with
  | nil => rfl
  | cons c rest =>
    rw [fold_min_low, List.foldl_cons]
    show rest.foldl (fun acc c => some (acc.elim c.low (fun m => min m c.low)))
      (some c.low) = _
    rw [fold_min_low_from_some]
    rfl

/-- C10: on a non-empty window, `compute_price_bounds` returns
`(max (min_low - margin) 0, max_high + margin)` with
`margin = 2% · (max_high - min_low)`, where `min_low`/`max_high` are the
window's extreme low/high; the lower bound is clamped at zero (never
negative) while the upper bound always receives the full margin. -/
theorem c10_price_bounds_clamped (cs : List OHLC) (hne : cs ≠ []) :
    ∃ lo hi,
      lo ∈ cs.map OHLC.low ∧ (∀ c ∈ cs, lo ≤ c.low) ∧
      hi ∈ cs.map OHLC.high ∧ (∀ c ∈ cs, c.high ≤ hi) ∧
      compute_price_bounds cs =
        some (max (lo - (hi - lo) * (2 / 100)) 0, hi + (hi - lo) * (2 / 100)) ∧
      0 ≤ max (lo - (hi - lo) * (2 / 100)) 0 := by
  obtain ⟨c, rest, rfl⟩ := List.exists_cons_of_ne_nil hne
  obtain ⟨lo, hlo⟩ : ∃ lo, ((c :: rest).map OHLC.low).min? = some lo := by
    simp [List.min?_cons]
  obtain ⟨hi, hhi⟩ : ∃ hi, ((c :: rest).map OHLC.high).max? = some hi := by
    simp [List.max?_cons]
  refine ⟨lo, hi, List.min?_mem min_choice hlo, ?_, List.max?_mem max_choice hhi, ?_, ?_, ?_⟩
  · intro d hd
    exact (List.le_min?_iff (fun _ _ _ => le_min_iff) hlo).1 le_rfl _
      (List.mem_map_of_mem OHLC.low hd)
  · intro d hd
    exact (List.max?_le_iff (fun _ _ _ => max_le_iff) hhi).1 le_rfl _
      (List.mem_map_of_mem OHLC.high hd)
  · rw [compute_price_bounds, fold_max_high_eq_max?, fold_min_low_eq_min?, hhi, hlo]
  · exact le_max_right _ _

/-- Witness for C10 on a concrete one-candle window. -/
theorem c10_price_bounds_clamped_witness :
    ([sample_candle] ≠ ([] : List OHLC)) ∧
    (∃ lo hi,
      lo ∈ [sample_candle].map OHLC.low ∧ (∀ c ∈ [sample_candle], lo ≤ c.low) ∧
      hi ∈ [sample_candle].map OHLC.high ∧ (∀ c ∈ [sample_candle], c.high ≤ hi) ∧
      compute_price_bounds [sample_candle] =
        some (max (lo - (hi - lo) * (2 / 100)) 0, hi + (hi - lo) * (2 / 100)) ∧
      0 ≤ max (lo - (hi - lo) * (2 / 100)) 0) :=
  ⟨by simp, c10_price_bounds_clamped [sample_candle] (by simp)⟩

/-- Every hourly test candle sits exactly on the minute. -/
theorem hourly_candles_minute (n : ℕ) :
    ∀ c ∈ hourly_candles n, c.timestamp.minute = 0 := by
  intro c hc
  simp only [hourly_candles, List.mem_map] at hc
  obtain ⟨i, _, rfl⟩ := hc
  rfl

/-- Under the hourly round-hours strategy, every on-the-minute candle is
labelled, so the label count is the window length. -/
theorem count_labels_from_round_hours_one (cs : List OHLC)
    (hmin : ∀ c ∈ cs, c.timestamp.minute = 0) :
    ∀ prev, count_labels_from prev cs (.RoundHours 1) = cs.length := by
  induction cs with
  | nil => intro prev; rfl
  | cons c rest ih =>
    intro prev
    have hc : should_show_label c prev (.RoundHours 1) = true := by
      simp [should_show_label, Nat.mod_one, hmin c (by simp)]
    simp only [count_labels_from, hc, if_true, List.length_cons]
    rw [ih (fun d hd => hmin d (by simp [hd]))]
    omega

/-- C7 counterexample: for 12 hourly candles at the 5-minute granularity on
a 200-column chart (no narrow adjustment), the axis produces 12 labels,
exceeding the claimed 2–10 cap. -/
theorem c7_counterexample :
    count_labels (hourly_candles 12)
      (adjusted_strategy 200 (x_axis_format .M5).label_strategy) = 12 ∧
    ¬(count_labels (hourly_candles 12)
        (adjusted_strategy 200 (x_axis_format .M5).label_strategy) ≤ 10) := by
  have hstrat : adjusted_strategy 200 (x_axis_format .M5).label_strategy =
      .RoundHours 1 := rfl
  have h : count_labels (hourly_candles 12) (.RoundHours 1) = 12 := by
    rw [count_labels, count_labels_from_round_hours_one _ (hourly_candles_minute 12)]
    simp [hourly_candles]
  rw [hstrat, h]
  norm_num

/-- C7 (amended): no cap on the number of labels exists in the renderer —
the label count is exactly the number of window candles satisfying the
active cadence strategy, and grows without bound: `n` hourly candles under
the 5-minute strategy (chart wide enough to avoid the narrow adjustment)
produce exactly `n` labels. -/
theorem c7_no_label_cap (n : ℕ) :
    adjusted_strategy 200 (x_axis_format .M5).label_strategy = .RoundHours 1 ∧
    count_labels (hourly_candles n)
      (adjusted_strategy 200 (x_axis_format .M5).label_strategy) = n := by
  refine ⟨rfl, ?_⟩
  rw [show adjusted_strategy 200 (x_axis_format .M5).label_strategy =
    .RoundHours 1 from rfl]
  rw [count_labels, count_labels_from_round_hours_one _ (hourly_candles_minute n)]
  simp [hourly_candles]

/-- On a degenerate price range every price maps to mid-height. -/
theorem price_to_height_flat100 (H : ℕ) (p : ℚ) :
    price_to_height ⟨100, 100, H⟩ p = (H : ℚ) / 2 := by
  simp [price_to_height]

/-- Full characterisation of `render_candle` on the flat candle: the glyph
is the half-body-bottom glyph exactly at the row `y` with `2y + 1 = H`
(odd chart height, just below the fractional mid-height) and blank
everywhere else — never the full-body glyph, never a wick glyph. -/
theorem render_candle_flat_eq (H y : ℕ) :
    render_candle ⟨100, 100, H⟩ flat_candle y =
      if 2 * y + 1 = H then UNICODE_HALF_BODY_BOTTOM else UNICODE_VOID := by
  have hv : ∀ p : ℚ, price_to_height ⟨100, 100, H⟩ p = (H : ℚ) / 2 :=
    price_to_height_flat100 H
  have hfl : ((⌊(H : ℚ) / 2⌋ : ℤ) : ℚ) ≤ (H : ℚ) / 2 := Int.floor_le _
  have hfl2 : (H : ℚ) / 2 - 1 < ((⌊(H : ℚ) / 2⌋ : ℤ) : ℚ) := Int.sub_one_lt_floor _
  have hcl : (H : ℚ) / 2 ≤ ((⌈(H : ℚ) / 2⌉ : ℤ) : ℚ) := Int.le_ceil _
  have hcl2 : ((⌈(H : ℚ) / 2⌉ : ℤ) : ℚ) < (H : ℚ) / 2 + 1 := Int.ceil_lt_add_one _
  by_cases hub : ((y : ℚ) ≤ ((⌈(H : ℚ) / 2⌉ : ℤ) : ℚ) ∧
      ((⌊(H : ℚ) / 2⌋ : ℤ) : ℚ) ≤ (y : ℚ))
  · have hu : upper_zone ⟨100, 100, H⟩ flat_candle y = true := by
      simp only [upper_zone, hv, decide_eq_true_eq]
      exact hub
    have hdiff : (H : ℚ) / 2 - (y : ℚ) = (((H : ℤ) - 2 * (y : ℤ) : ℤ) : ℚ) / 2 := by
      push_cast
      ring
    have hk_le : (H : ℤ) - 2 * (y : ℤ) ≤ 1 := by
      by_contra hcon
      have h2 : (2 : ℚ) ≤ (((H : ℤ) - 2 * (y : ℤ) : ℤ) : ℚ) := by
        exact_mod_cast (by omega : (2 : ℤ) ≤ (H : ℤ) - 2 * (y : ℤ))
      have h3 : (H : ℚ) / 2 - (y : ℚ) < 1 := by linarith [hub.2]
      rw [hdiff] at h3
      linarith
    have hk_ge : -1 ≤ (H : ℤ) - 2 * (y : ℤ) := by
      by_contra hcon
      have h2 : (((H : ℤ) - 2 * (y : ℤ) : ℤ) : ℚ) ≤ -2 := by
        exact_mod_cast (by omega : (H : ℤ) - 2 * (y : ℤ) ≤ -2)
      have h3 : (y : ℚ) - (H : ℚ) / 2 < 1 := by linarith [hub.1]
      rw [show (y : ℚ) - (H : ℚ) / 2 = -((H : ℚ) / 2 - (y : ℚ)) by ring, hdiff] at h3
      linarith
    have hcases : (H : ℤ) - 2 * (y : ℤ) = -1 ∨ (H : ℤ) - 2 * (y : ℤ) = 0 ∨
        (H : ℤ) - 2 * (y : ℤ) = 1 := by omega
    simp only [render_candle, hu, if_true]
    rcases hcases with hk | hk | hk
    · have e : ∀ p : ℚ, price_to_height ⟨100, 100, H⟩ p - (y : ℚ) = -(1 / 2) := by
        intro p
        rw [hv p, hdiff, hk]
        norm_num
      rw [if_neg (by omega)]
      simp only [upper_zone_glyph, e]
      norm_num [UNICODE_VOID]
    · have e : ∀ p : ℚ, price_to_height ⟨100, 100, H⟩ p - (y : ℚ) = 0 := by
        intro p
        rw [hv p, hdiff, hk]
        norm_num
      rw [if_neg (by omega)]
      simp only [upper_zone_glyph, e]
      norm_num [UNICODE_VOID]
    · have e : ∀ p : ℚ, price_to_height ⟨100, 100, H⟩ p - (y : ℚ) = 1 / 2 := by
        intro p
        rw [hv p, hdiff, hk]
        norm_num
      rw [if_pos (by omega)]
      simp only [upper_zone_glyph, e]
      norm_num [UNICODE_HALF_BODY_BOTTOM]
  · have hu : upper_zone ⟨100, 100, H⟩ flat_candle y = false := by
      simp only [upper_zone, hv, decide_eq_false_iff_not]
      exact hub
    have hb : body_zone ⟨100, 100, H⟩ flat_candle y = false := by
      simp only [body_zone, hv, decide_eq_false_iff_not]
      rintro ⟨h1, h2⟩
      exact hub ⟨le_trans h1 (le_trans hfl hcl), le_trans (le_trans hfl hcl) h2⟩
    have hl : lower_zone ⟨100, 100, H⟩ flat_candle y = false := by
      simp only [lower_zone, hv, decide_eq_false_iff_not]
      exact hub
    simp only [render_candle, hu, hb, hl, if_false, Bool.false_eq_true]
    rw [if_neg]
    intro hH
    apply hub
    have hy : (y : ℚ) ≤ (H : ℚ) / 2 := by
      have : ((2 * y : ℕ) : ℚ) ≤ ((H : ℕ) : ℚ) := by exact_mod_cast (by omega : 2 * y ≤ H)
      push_cast at this
      linarith
    have hy2 : (H : ℚ) / 2 < (y : ℚ) + 1 := by
      have : ((H : ℕ) : ℚ) = 2 * (y : ℚ) + 1 := by exact_mod_cast hH.symm
      linarith
    constructor
    · exact le_trans hy hcl
    · have h1 : ⌊(H : ℚ) / 2⌋ ≤ (y : ℤ) := by
        rw [Int.floor_le_iff]
        push_cast
        linarith
      exact_mod_cast h1

/-- Every cell of a rendered grid row is either background blank or the
glyph of one of the window's candles at that row. -/
theorem mem_line_chars {r : Renderer} {cs : List OHLC} {ps : List CandlePosition}
    {y w : ℕ} {ch : Char} (h : ch ∈ line_chars r cs ps y w) :
    ch = ' ' ∨ ∃ c, c ∈ cs ∧ ch = render_candle r c y := by
  rw [line_chars] at h
  suffices aux : ∀ (pairs : List (OHLC × CandlePosition)) (line : List Char),
      (∀ p ∈ pairs, p.1 ∈ cs) →
      (∀ x ∈ line, x = ' ' ∨ ∃ c, c ∈ cs ∧ x = render_candle r c y) →
      ∀ x ∈ pairs.foldl
        (fun line cp =>
          if cp.2.column < line.length then line.set cp.2.column (render_candle r cp.1 y)
          else line) line,
        x = ' ' ∨ ∃ c, c ∈ cs ∧ x = render_candle r c y by
    refine aux (cs.zip ps) _ (fun p hp => (List.of_mem_zip hp).1) ?_ ch h
    intro x hx
    exact Or.inl (List.eq_of_mem_replicate hx)
  intro pairs
  induction pairs with
  | nil =>
    intro line h1 h2
    simpa using h2
  | cons p ps' ih =>
    intro line h1 h2
    simp only [List.foldl_cons]
    refine ih _ (fun q hq => h1 q (by simp [hq])) ?_
    intro x hx
    by_cases hcol : p.2.column < line.length
    · rw [if_pos hcol] at hx
      rcases List.mem_or_eq_of_mem_set hx with hmem | rfl
      · exact h2 x hmem
      · exact Or.inr ⟨p.1, h1 p (by simp), rfl⟩
    · rw [if_neg hcol] at hx
      exact h2 x hx

/-- C3 counterexample: for the flat 100-price series the renderer's price
bounds are degenerate (100, 100), and at the mid-height row (height 10,
row 5) the flat candle renders as a blank, not the full-body glyph the
claim requires. -/
theorem c3_counterexample :
    compute_price_bounds flat_series = some (100, 100) ∧
    render_candle ⟨100, 100, 10⟩ flat_candle 5 = ' ' ∧
    render_candle ⟨100, 100, 10⟩ flat_candle 5 ≠ UNICODE_BODY := by
  refine ⟨?_, ?_, ?_⟩
  · show compute_price_bounds [flat_candle, flat_candle, flat_candle] = _
    rw [compute_price_bounds, fold_max_high_eq_max?, fold_min_low_eq_min?]
    norm_num [flat_candle, List.max?_cons, List.min?_cons]
  · rw [render_candle_flat_eq 10 5, if_neg (by omega)]
    rfl
  · rw [render_candle_flat_eq 10 5, if_neg (by omega)]
    decide

/-- C3 (amended): for the flat three-candle series (all prices 100), the
price bounds degenerate to (100, 100); every cell of every rendered grid
row (any chart height, any width) is either blank or the half-body-bottom
glyph — no wick glyph and no full-body glyph ever appears; at the
mid-height row the flat candle shows nothing for even chart heights and the
half-body-bottom glyph at row `height / 2` for odd heights. -/
theorem c3_flat_series_render :
    compute_price_bounds flat_series = some (100, 100) ∧
    (∀ H y : ℕ, render_candle ⟨100, 100, H⟩ flat_candle y = ' ' ∨
      render_candle ⟨100, 100, H⟩ flat_candle y = UNICODE_HALF_BODY_BOTTOM) ∧
    (∀ H width y : ℕ, ∀ ch ∈ line_chars ⟨100, 100, H⟩ flat_series
        (compute_candle_positions width 3) y width,
      ch = ' ' ∨ ch = UNICODE_HALF_BODY_BOTTOM) ∧
    (∀ H : ℕ, H % 2 = 0 → render_candle ⟨100, 100, H⟩ flat_candle (H / 2) = ' ') ∧
    (∀ H : ℕ, H % 2 = 1 →
      render_candle ⟨100, 100, H⟩ flat_candle (H / 2) = UNICODE_HALF_BODY_BOTTOM) := by
  have hflat : ∀ H y : ℕ, render_candle ⟨100, 100, H⟩ flat_candle y = ' ' ∨
      render_candle ⟨100, 100, H⟩ flat_candle y = UNICODE_HALF_BODY_BOTTOM := by
    intro H y
    rw [render_candle_flat_eq H y]
    split
    · exact Or.inr rfl
    · exact Or.inl rfl
  refine ⟨?_, hflat, ?_, ?_, ?_⟩
  · show compute_price_bounds [flat_candle, flat_candle, flat_candle] = _
    rw [compute_price_bounds, fold_max_high_eq_max?, fold_min_low_eq_min?]
    norm_num [flat_candle, List.max?_cons, List.min?_cons]
  · intro H width y ch hch
    rcases mem_line_chars hch with hbg | ⟨c, hc, rfl⟩
    · exact Or.inl hbg
    · have hc' : c = flat_candle := by
        simpa [flat_series, or_self] using hc
      rw [hc']
      exact hflat H y
  · intro H hH
    rw [render_candle_flat_eq H (H / 2), if_neg (by omega)]
    rfl
  · intro H hH
    rw [render_candle_flat_eq H (H / 2), if_pos (by omega)]

/-- Witness for C3 (amended) at concrete heights: a cell of the width-9 grid
row, the even height 10 at its mid-row, and the odd height 9 at its
mid-row. -/
theorem c3_flat_series_render_witness :
    (' ' ∈ line_chars ⟨100, 100, 10⟩ flat_series (compute_candle_positions 9 3) 5 9 →
      (' ' = ' ' ∨ ' ' = UNICODE_HALF_BODY_BOTTOM)) ∧
    render_candle ⟨100, 100, 10⟩ flat_candle 5 = ' ' ∧
    render_candle ⟨100, 100, 9⟩ flat_candle 4 = UNICODE_HALF_BODY_BOTTOM :=
  ⟨fun h => (c3_flat_series_render.2.2.1 10 9 5 ' ' h),
   c3_flat_series_render.2.2.2.1 10 (by norm_num),
   c3_flat_series_render.2.2.2.2 9 (by norm_num)⟩

/-- Writing a label never changes the row length. -/
theorem write_label_length (label : List Char) (line : List Char) (idx stop : ℕ) :
    (write_label line label idx stop).length = line.length := by
  induction label generalizing line idx with
  | nil => rfl
  | cons ch rest ih =>
    rw [write_label, ih]
    split <;> simp

/-- Cells strictly before the write cursor are untouched. -/
theorem write_label_getD_lt (label : List Char) (line : List Char) (idx stop p : ℕ)
    (hp : p < idx) :
    (write_label line label idx stop).getD p ' ' = line.getD p ' ' := by
  induction label generalizing line idx with
  | nil => rfl
  | cons ch rest ih =>
    rw [write_label, ih _ _ (by omega)]
    split
    · simp [List.getD_eq_getElem?_getD, List.getElem?_set_ne (by omega : idx ≠ p)]
    · rfl

/-- Cells at or beyond the clipping bound `stop` are untouched. -/
theorem write_label_getD_ge (label : List Char) (line : List Char) (idx stop p : ℕ)
    (hp : stop ≤ p) :
    (write_label line label idx stop).getD p ' ' = line.getD p ' ' := by
  induction label generalizing line idx with
  | nil => rfl
  | cons ch rest ih =>
    rw [write_label, ih]
    split
    · have : idx ≠ p := by omega
      simp [List.getD_eq_getElem?_getD, List.getElem?_set_ne this]
    · rfl

/-- A cell inside the written span holds the corresponding label
character. -/
theorem write_label_getD_in (label : List Char) (line : List Char) (idx stop p : ℕ)
    (h1 : idx ≤ p) (h2 : p < stop) (h3 : p < idx + label.length)
    (h4 : p < line.length) :
    (write_label line label idx stop).getD p ' ' = label.getD (p - idx) ' ' := by
  induction label generalizing line idx with
  | nil =>
    exfalso
    simp only [List.length_nil] at h3
    omega
  | cons ch rest ih =>
    simp only [List.length_cons] at h3
    rw [write_label]
    by_cases hpi : p = idx
    · subst hpi
      rw [write_label_getD_lt _ _ _ _ _ (by omega), if_pos h2]
      simp [List.getD_eq_getElem?_getD, List.getElem?_set_self h4, Nat.sub_self]
    · have hlen : (if idx < stop then line.set idx ch else line).length = line.length := by
        split <;> simp
      rw [ih _ _ (by omega) (by omega) (by omega : p < (if idx < stop then line.set idx ch else line).length)]
      have : p - idx = (p - (idx + 1)) + 1 := by omega
      rw [this, List.getD_cons_succ]

/-- Absence of overlap says exactly that every cell the label would occupy
is still blank. -/
theorem has_overlap_eq_false_iff (line : List Char) (start stop : ℕ) :
    has_overlap line start stop = false ↔
      ∀ p, start ≤ p → p < stop → line.getD p ' ' = ' ' := by
  rw [has_overlap, List.any_eq_false]
  constructor
  · intro h p h1 h2
    have hmem : p ∈ List.range' start (stop - start) := by
      rw [List.mem_range']
      exact ⟨p - start, by omega, by omega⟩
    have := h p hmem
    simpa using this
  · intro h p hmem
    rw [List.mem_range'] at hmem
    obtain ⟨i, hi, rfl⟩ := hmem
    simpa using h _ (by omega) (by omega)

/-- One date-row step never overwrites: every already non-blank cell keeps
its character. -/
theorem place_date_label_keeps_nonblank (line : List Char) (it : List Char × ℕ)
    (p : ℕ) (hp : line.getD p ' ' ≠ ' ') :
    (place_date_label line it).getD p ' ' = line.getD p ' ' := by
  simp only [place_date_label]
  split
  · rfl
  · rename_i hov
    have hblank := (has_overlap_eq_false_iff line (it.2 - it.1.length / 2)
      (min ((it.2 - it.1.length / 2) + it.1.length) line.length)).1
      (Bool.eq_false_iff.2 hov)
    rcases Nat.lt_or_ge p (it.2 - it.1.length / 2) with h | h
    · exact write_label_getD_lt _ _ _ _ _ h
    · rcases Nat.lt_or_ge p (min ((it.2 - it.1.length / 2) + it.1.length) line.length)
        with h2 | h2
      · exact absurd (hblank p h h2) hp
      · exact write_label_getD_ge _ _ _ _ _ h2

/-- After an unobstructed write of a space-free label, every cell of its
span is non-blank. -/
theorem write_label_span_nonblank (label : List Char) (line : List Char)
    (start stop p : ℕ) (hns : ∀ ch ∈ label, ch ≠ ' ')
    (h1 : start ≤ p) (h2 : p < stop) (h3 : stop ≤ start + label.length)
    (h4 : stop ≤ line.length) :
    (write_label line label start stop).getD p ' ' ≠ ' ' := by
  rw [write_label_getD_in _ _ _ _ _ h1 h2 (by omega) (by omega)]
  have hlt : p - start < label.length := by omega
  apply hns
  rw [List.getD_eq_getElem?_getD, List.getElem?_eq_getElem hlt]
  exact List.getElem_mem hlt

/-- No later written range can contain a cell that is already non-blank. -/
theorem written_ranges_avoid (items : List (List Char × ℕ)) :
    ∀ (line : List Char) (p : ℕ), line.getD p ' ' ≠ ' ' →
      ∀ rg ∈ written_ranges line items, ¬(rg.1 ≤ p ∧ p < rg.2) := by
  induction items with
  | nil =>
    intro line p hp rg hrg
    simp [written_ranges] at hrg
  | cons it rest ih =>
    intro line p hp rg hrg
    simp only [written_ranges] at hrg
    split at hrg
    · exact ih line p hp rg hrg
    · rename_i hov
      have hblank := (has_overlap_eq_false_iff line (it.2 - it.1.length / 2)
        (min ((it.2 - it.1.length / 2) + it.1.length) line.length)).1
        (Bool.eq_false_iff.2 hov)
      rcases List.mem_cons.1 hrg with rfl | htail
      · rintro ⟨h1, h2⟩
        exact hp (hblank p h1 h2)
      · have hout : p < it.2 - it.1.length / 2 ∨
            min ((it.2 - it.1.length / 2) + it.1.length) line.length ≤ p := by
          by_contra hcon
          push_neg at hcon
          exact hp (hblank p hcon.1 hcon.2)
        have hkeep : (write_label line it.1 (it.2 - it.1.length / 2)
            (min ((it.2 - it.1.length / 2) + it.1.length) line.length)).getD p ' ' ≠ ' ' := by
          rcases hout with h | h
          · rw [write_label_getD_lt _ _ _ _ _ h]
            exact hp
          · rw [write_label_getD_ge _ _ _ _ _ h]
            exact hp
        exact ih _ p hkeep rg htail

/-- The ranges actually written by the date-row loop are pairwise disjoint
(for space-free labels), starting from any row state. -/
theorem written_ranges_pairwise (items : List (List Char × ℕ))
    (hns : ∀ it ∈ items, ∀ ch ∈ it.1, ch ≠ ' ') :
    ∀ line : List Char,
      List.Pairwise ranges_disjoint (written_ranges line items) := by
  induction items with
  | nil =>
    intro line
    simp [written_ranges]
  | cons it rest ih =>
    intro line
    simp only [written_ranges]
    split
    · exact ih (fun q hq => hns q (by simp [hq])) line
    · refine List.Pairwise.cons ?_ (ih (fun q hq => hns q (by simp [hq])) _)
      intro rg hrg p h1 h2
      have hnb : (write_label line it.1 (it.2 - it.1.length / 2)
          (min ((it.2 - it.1.length / 2) + it.1.length) line.length)).getD p ' ' ≠ ' ' :=
        write_label_span_nonblank it.1 line _ _ p (hns it (by simp)) h1 h2
          (min_le_left _ _) (min_le_right _ _)
      exact written_ranges_avoid rest _ p hnb rg hrg

/-- C6: a date label is written only when every cell it would occupy is
still blank; a colliding label is skipped whole and no write ever changes a
non-blank cell; consequently the ranges of the written labels are pairwise
disjoint — no two printed labels share a column of the date row. -/
theorem c6_date_label_no_overlap (width : ℕ) (items : List (List Char × ℕ))
    (hns : ∀ it ∈ items, ∀ ch ∈ it.1, ch ≠ ' ') :
    (∀ line it p, List.getD line p ' ' ≠ ' ' →
      List.getD (place_date_label line it) p ' ' = List.getD line p ' ') ∧
    (∀ line it, has_overlap line (it.2 - it.1.length / 2)
        (min ((it.2 - it.1.length / 2) + it.1.length) (List.length line)) = true →
      place_date_label line it = line) ∧
    List.Pairwise ranges_disjoint (written_ranges (List.replicate width ' ') items) :=
  ⟨fun line it p hp => place_date_label_keeps_nonblank line it p hp,
   fun line it hov => by simp only [place_date_label]; rw [if_pos hov],
   written_ranges_pairwise items hns (List.replicate width ' ')⟩

/-- Witness for C6 on two concrete five-character labels whose centred
spans collide: the space-free hypothesis holds and the conclusion follows
by applying the theorem. -/
theorem c6_date_label_no_overlap_witness :
    (∀ it ∈ sample_date_items, ∀ ch ∈ it.1, ch ≠ ' ') ∧
    ((∀ line it p, List.getD line p ' ' ≠ ' ' →
        List.getD (place_date_label line it) p ' ' = List.getD line p ' ') ∧
      (∀ line it, has_overlap line (it.2 - it.1.length / 2)
          (min ((it.2 - it.1.length / 2) + it.1.length) (List.length line)) = true →
        place_date_label line it = line) ∧
      List.Pairwise ranges_disjoint
        (written_ranges (List.replicate 20 ' ') sample_date_items)) :=
  ⟨by decide, c6_date_label_no_overlap 20 sample_date_items (by decide)⟩

end Lazywallet
